import Mathlib

/-!
Shallow embedding of src/Reaction_Bot.py (a Discord reaction-leaderboard bot
backed by SQLite).  The SQLite tables `users`, `messages` and
`reaction_events` become lists of rows; each helper of the Python file
becomes a Lean function on that state.  SQL `INSERT OR IGNORE`, `UPDATE`,
`INSERT` and the `SUM(CASE WHEN ... ) GROUP BY ... ORDER BY ... DESC LIMIT 10`
queries are translated statement by statement.  A raised Python exception is
an `Option String` carried next to the post-crash committed state (each
helper commits on its own connection, so writes made before a crash stay).
-/

/-- A discord user object as the bot sees it (`user.id`, `user.name`,
`user.discriminator`, `user.bot`). -/
structure DUser where
  id : Int
  uname : String
  discriminator : String
  bot : Bool
deriving DecidableEq

/-- A discord message object: `message.guild` is modelled by the guild id
(the code only ever reads `message.guild.id`; `none` is a message with no
guild, where `message.guild.id` raises `AttributeError`), and
`message.author` may be `None`. -/
structure DMessage where
  id : Int
  channel_id : Int
  guild : Option Int
  author : Option DUser
deriving DecidableEq

/-- The `emoji` argument of `record_reaction_event`: either a plain unicode
string or a custom `discord.Emoji` carrying a name and an id. -/
inductive DEmoji where
  | unicode (s : String)
  | custom (ename : String) (eid : Int)
deriving DecidableEq

/-- Line 122: `str(emoji) if isinstance(emoji, str) else emoji.name`. -/
def emojiName : DEmoji → String
  | DEmoji.unicode s => s
  | DEmoji.custom n _ => n

/-- Line 123: `emoji.id if isinstance(emoji, discord.Emoji) else None`. -/
def emojiId : DEmoji → Option Int
  | DEmoji.unicode _ => none
  | DEmoji.custom _ i => some i

/-- A row of the `users` table. -/
structure UserRow where
  user_id : Int
  username : String
  discriminator : String
deriving DecidableEq

/-- A row of the `messages` table. -/
structure MessageRow where
  message_id : Int
  channel_id : Int
  guild_id : Int
  author_id : Int
deriving DecidableEq

/-- A row of the `reaction_events` table (`id` is the AUTOINCREMENT key;
`guild_id` is nullable; `emoji_id` is NULL for unicode emojis). -/
structure EventRow where
  id : Nat
  reactor_user_id : Int
  message_id : Int
  message_author_id : Int
  emoji_name : String
  emoji_id : Option Int
  event_type : String
  guild_id : Option Int
deriving DecidableEq

/-- The whole SQLite database `reactions.db`. -/
structure DB where
  users : List UserRow
  messages : List MessageRow
  reaction_events : List EventRow
  next_event_id : Nat
deriving DecidableEq

/-- The database right after `setup_database` on a fresh file. -/
def emptyDB : DB := { users := [], messages := [], reaction_events := [], next_event_id := 1 }

/-- A `users` row with this `user_id` exists (the `INSERT OR IGNORE`
conflict test on the primary key). -/
def userExists (db : DB) (i : Int) : Prop := ∃ r ∈ db.users, r.user_id = i

instance (db : DB) (i : Int) : Decidable (userExists db i) :=
  inferInstanceAs (Decidable (∃ r ∈ db.users, r.user_id = i))

/-- A `messages` row with this `message_id` exists. -/
def msgExists (db : DB) (i : Int) : Prop := ∃ r ∈ db.messages, r.message_id = i

instance (db : DB) (i : Int) : Decidable (msgExists db i) :=
  inferInstanceAs (Decidable (∃ r ∈ db.messages, r.message_id = i))

/-- `update_user_in_db` (lines 81-94): `INSERT OR IGNORE` of the user row,
then an unconditional `UPDATE` of username and discriminator for that
`user_id`. -/
def update_user_in_db (u : DUser) (db : DB) : DB :=
  let inserted :=
    if userExists db u.id then db.users
    else db.users ++ [{ user_id := u.id, username := u.uname, discriminator := u.discriminator }]
  { db with users := inserted.map (fun r =>
      if r.user_id = u.id then { r with username := u.uname, discriminator := u.discriminator } else r) }

/-- `update_message_in_db` (lines 96-105): `INSERT OR IGNORE` of the message
row.  The Python tuple evaluates `message.guild.id` and `message.author.id`,
so a missing guild or author raises `AttributeError` before any write. -/
def update_message_in_db (m : DMessage) (db : DB) : Except String DB :=
  match m.guild with
  | none => Except.error "AttributeError: NoneType object has no attribute id (message.guild)"
  | some g =>
    match m.author with
    | none => Except.error "AttributeError: NoneType object has no attribute id (message.author)"
    | some a =>
      Except.ok { db with messages :=
        (if msgExists db m.id then db.messages
         else db.messages ++ [{ message_id := m.id, channel_id := m.channel_id, guild_id := g, author_id := a.id }]) }

/-- Outcome of a Python call: the committed database state, and the raised
exception when the call did not return normally. -/
structure PyResult where
  db : DB
  exn : Option String
deriving DecidableEq

/-- `record_reaction_event` (lines 107-133): upsert the reactor, upsert the
message author (raises on a `None` author at line 119), upsert the message
(raises on a missing guild at line 102), then `INSERT` one event row with
`guild_id = message.guild.id if message.guild else None`. -/
def record_reaction_event (reactor : DUser) (message : DMessage) (emoji : DEmoji)
    (event_type : String) (db : DB) : PyResult :=
  let db1 := update_user_in_db reactor db
  match message.author with
  | none =>
    { db := db1, exn := some "AttributeError: NoneType object has no attribute id (message.author)" }
  | some a =>
    let db2 := update_user_in_db a db1
    match update_message_in_db message db2 with
    | Except.error e => { db := db2, exn := some e }
    | Except.ok db3 =>
      let row : EventRow :=
        { id := db3.next_event_id
          reactor_user_id := reactor.id
          message_id := message.id
          message_author_id := a.id
          emoji_name := emojiName emoji
          emoji_id := emojiId emoji
          event_type := event_type
          guild_id := message.guild }
      { db := { db3 with
                  reaction_events := db3.reaction_events ++ [row]
                  next_event_id := db3.next_event_id + 1 }
        exn := none }

/-- `on_reaction_add` (lines 166-183): skip the bot itself, skip (with a log
line) a message whose author is `None`, otherwise record an add event. -/
def on_reaction_add (botUser : DUser) (message : DMessage) (emoji : DEmoji)
    (user : DUser) (db : DB) : PyResult :=
  if user = botUser then { db := db, exn := none }
  else
    match message.author with
    | none => { db := db, exn := none }
    | some _ => record_reaction_event user message emoji "add" db

/-- `on_reaction_remove` (lines 185-201), same shape with a remove event. -/
def on_reaction_remove (botUser : DUser) (message : DMessage) (emoji : DEmoji)
    (user : DUser) (db : DB) : PyResult :=
  if user = botUser then { db := db, exn := none }
  else
    match message.author with
    | none => { db := db, exn := none }
    | some _ => record_reaction_event user message emoji "remove" db

/-- One current reaction entry of a fetched message: its emoji and the users
who applied it (`reaction.users()`). -/
structure DReaction where
  emoji : DEmoji
  rusers : List DUser
deriving DecidableEq

/-- One step of walking `channel.history`: either a fetched message with its
reactions, or the point where the history iterator raises. -/
inductive HistItem where
  | fetched (m : DMessage) (reactions : List DReaction)
  | fetchFail (e : String)
deriving DecidableEq

/-- A text channel of the guild, as backfill walks it. -/
structure Channel where
  cname : String
  items : List HistItem
deriving DecidableEq

/-- Innermost backfill loop (lines 141-145): for each reacting user, skip
bots, otherwise `record_reaction_event(user, message, emoji, add)`;
a raised exception aborts the walk of this channel. -/
def usersLoop (message : DMessage) (emoji : DEmoji) : List DUser → DB → DB × Option String
  | [], db => (db, none)
  | u :: rest, db =>
    if u.bot then usersLoop message emoji rest db
    else
      let r := record_reaction_event u message emoji "add" db
      match r.exn with
      | some e => (r.db, some e)
      | none => usersLoop message emoji rest r.db

/-- Loop over `message.reactions` (line 140). -/
def reactionsLoop (message : DMessage) : List DReaction → DB → DB × Option String
  | [], db => (db, none)
  | r :: rest, db =>
    match usersLoop message r.emoji r.rusers db with
    | (db1, some e) => (db1, some e)
    | (db1, none) => reactionsLoop message rest db1

/-- Loop over `channel.history` (line 139); a failing fetch raises there. -/
def itemsLoop : List HistItem → DB → DB × Option String
  | [], db => (db, none)
  | HistItem.fetchFail e :: _, db => (db, some e)
  | HistItem.fetched m rs :: rest, db =>
    match reactionsLoop m rs db with
    | (db1, some e) => (db1, some e)
    | (db1, none) => itemsLoop rest db1

/-- The body of the per-channel `try` block of `backfill_reactions`. -/
def walkChannel (c : Channel) (db : DB) : DB × Option String := itemsLoop c.items db

/-- `backfill_reactions` (lines 135-148): walk every channel; a raised
exception is caught per channel, printed, and the walk continues with the
next channel.  Returns the final state and the printed log lines. -/
def backfill_reactions : List Channel → DB → DB × List String
  | [], db => (db, [])
  | c :: rest, db =>
    let s := walkChannel c db
    let entry :=
      match s.2 with
      | some e => "Error in channel " ++ c.cname ++ ": " ++ e
      | none => "Finished backfilling channel: " ++ c.cname
    let t := backfill_reactions rest s.1
    (t.1, entry :: t.2)

/-- One operation of the public ingestion contract: a live
`record_reaction_event` call, or a whole backfill pass. -/
inductive Op where
  | live (reactor : DUser) (message : DMessage) (emoji : DEmoji) (event_type : String)
  | backfill (channels : List Channel)
deriving DecidableEq

/-- Run one operation, keeping the committed state even when it raised. -/
def runOp (op : Op) (db : DB) : DB :=
  match op with
  | Op.live reactor message emoji event_type => (record_reaction_event reactor message emoji event_type db).db
  | Op.backfill channels => (backfill_reactions channels db).1

/-- Run a sequence of ingestion operations. -/
def runOps (ops : List Op) (db : DB) : DB := ops.foldl (fun d op => runOp op d) db

/-- `SUM(CASE WHEN event_type = 'add' THEN 1 ELSE -1 END)` over a group of
rows; `etype` extracts the `event_type` column of a row. -/
def netCount {α : Type} (rows : List α) (etype : α → String) : Int :=
  (rows.map (fun r => if etype r = "add" then (1 : Int) else -1)).sum

/-- Rows of a group whose `event_type` is `add`, counted. -/
def countAdds {α : Type} (rows : List α) (etype : α → String) : Int :=
  ((rows.filter (fun r => etype r = "add")).length : Int)

/-- Rows of a group whose `event_type` is `remove`, counted. -/
def countRemoves {α : Type} (rows : List α) (etype : α → String) : Int :=
  ((rows.filter (fun r => etype r = "remove")).length : Int)

/-- The shared shape of all six queries:
`GROUP BY key`, net count per group, `ORDER BY` the count `DESC`
(ties in unspecified order), `LIMIT 10`. -/
def sqlNetQuery {α κ : Type} [DecidableEq κ] (rows : List α) (key : α → κ)
    (etype : α → String) : List (κ × Int) :=
  (((rows.map key).dedup.map
      (fun k => (k, netCount (rows.filter (fun r => key r = k)) etype))).mergeSort
        (fun a b => decide (b.2 ≤ a.2))).take 10

/-- `WHERE re.guild_id = ?`: the events of one guild (a NULL `guild_id`
matches no guild). -/
def guildEvents (db : DB) (gid : Int) : List EventRow :=
  db.reaction_events.filter (fun e => e.guild_id = some gid)

/-- `JOIN users u ON re.message_author_id = u.user_id`: each event row paired
with every matching `users` row. -/
def joinAuthors (db : DB) (rows : List EventRow) : List (EventRow × UserRow) :=
  rows.flatMap (fun e => (db.users.filter (fun u => u.user_id = e.message_author_id)).map (fun u => (e, u)))

/-- `JOIN messages m ON re.message_id = m.message_id JOIN users u ON
m.author_id = u.user_id`. -/
def joinMsgAuthors (db : DB) (rows : List EventRow) : List (EventRow × MessageRow × UserRow) :=
  rows.flatMap (fun e =>
    (db.messages.filter (fun m => m.message_id = e.message_id)).flatMap (fun m =>
      (db.users.filter (fun u => u.user_id = m.author_id)).map (fun u => (e, m, u))))

/-- `/topusers` (lines 219-235): top users by reactions received, grouped by
`u.user_id` after the author join; the result keeps the group key (the SELECT
also reads that unique row's username and discriminator for display). -/
def topreactionsreceived (db : DB) (gid : Int) : List (Int × Int) :=
  sqlNetQuery (joinAuthors db (guildEvents db gid)) (fun p => p.2.user_id) (fun p => p.1.event_type)

/-- `/mytopreactions` (lines 274-287): the calling user's most sent
reactions, grouped by `emoji_name`. -/
def myusedreactions (db : DB) (gid : Int) (reactorId : Int) : List (String × Int) :=
  sqlNetQuery ((guildEvents db gid).filter (fun e => e.reactor_user_id = reactorId))
    (fun e => e.emoji_name) (fun e => e.event_type)

/-- `/topemojiusers` (lines 354-370): top receivers for one emoji, filtered
by `re.emoji_name = ?`, grouped by `u.user_id` after the author join. -/
def top_emoji_users (db : DB) (gid : Int) (emoji : String) : List (Int × Int) :=
  sqlNetQuery (joinAuthors db ((guildEvents db gid).filter (fun e => e.emoji_name = emoji)))
    (fun p => p.2.user_id) (fun p => p.1.event_type)

/-- `/servertopreactions` (lines 403-416): the most used reactions of the
guild, grouped by `emoji_name`. -/
def server_top_reactions (db : DB) (gid : Int) : List (String × Int) :=
  sqlNetQuery (guildEvents db gid) (fun e => e.emoji_name) (fun e => e.event_type)

/-- `/usertopreceived` (lines 450-463): one user's most received reactions,
grouped by `emoji_name`. -/
def user_top_received (db : DB) (gid : Int) (targetId : Int) : List (String × Int) :=
  sqlNetQuery ((guildEvents db gid).filter (fun e => e.message_author_id = targetId))
    (fun e => e.emoji_name) (fun e => e.event_type)

/-- `/topmessages` (lines 496-536): top messages, optionally filtered by
emoji name, grouped by `m.message_id` after the message and author joins. -/
def top_messages (db : DB) (gid : Int) (emoji : Option String) : List (Int × Int) :=
  let base :=
    match emoji with
    | some s => (guildEvents db gid).filter (fun e => e.emoji_name = s)
    | none => guildEvents db gid
  sqlNetQuery (joinMsgAuthors db base) (fun t => t.2.1.message_id) (fun t => t.1.event_type)

/-! ### Generic facts about the shared query shape -/

theorem netCount_nil {α : Type} (etype : α → String) : netCount ([] : List α) etype = 0 := rfl

theorem netCount_cons {α : Type} (r : α) (rows : List α) (etype : α → String) :
    netCount (r :: rows) etype =
      (if etype r = "add" then (1 : Int) else -1) + netCount rows etype := by
  simp [netCount]

theorem netCount_append {α : Type} (l1 l2 : List α) (etype : α → String) :
    netCount (l1 ++ l2) etype = netCount l1 etype + netCount l2 etype := by
  simp [netCount]

/-- With only add and remove rows in the group, the net count is the number
of adds minus the number of removes. -/
theorem netCount_eq_counts {α : Type} (rows : List α) (etype : α → String)
    (h : ∀ r ∈ rows, etype r = "add" ∨ etype r = "remove") :
    netCount rows etype = countAdds rows etype - countRemoves rows etype := by
  induction rows with
  | nil => rfl
  | cons r rs ih =>
    have hr := h r (List.mem_cons_self r rs)
    have ih2 := ih (fun x hx => h x (List.mem_cons_of_mem r hx))
    rcases hr with hr | hr
    · simp [netCount_cons, countAdds, countRemoves, List.filter_cons, hr, ih2,
        countAdds, countRemoves] at *
      omega
    · have hne : ¬ (etype r = "add") := by simp [hr]
      simp [netCount_cons, countAdds, countRemoves, List.filter_cons, hr, hne, ih2] at *
      omega

theorem sqlNetQuery_length_le {α κ : Type} [DecidableEq κ] (rows : List α)
    (key : α → κ) (etype : α → String) : (sqlNetQuery rows key etype).length ≤ 10 := by
  unfold sqlNetQuery
  exact List.length_take_le 10 _

/-- Every query result is sorted by net count, descending. -/
theorem sqlNetQuery_sorted {α κ : Type} [DecidableEq κ] (rows : List α)
    (key : α → κ) (etype : α → String) :
    (sqlNetQuery rows key etype).Pairwise (fun a b => b.2 ≤ a.2) := by
  unfold sqlNetQuery
  refine List.Pairwise.sublist (List.take_sublist _ _) ?_
  have h := @List.sorted_mergeSort (κ × Int) (fun a b => decide (b.2 ≤ a.2))
    (fun a b c hab hbc => by
      simp only [decide_eq_true_eq] at *
      exact le_trans hbc hab)
    (fun a b => by
      simp only [Bool.or_eq_true, decide_eq_true_eq]
      exact le_total b.2 a.2)
    (((rows.map key).dedup).map (fun k => (k, netCount (rows.filter (fun r => key r = k)) etype)))
  exact h.imp (fun hab => by simpa using hab)

/-- Every returned pair carries the net count of the group of rows holding
its key. -/
theorem sqlNetQuery_mem {α κ : Type} [DecidableEq κ] {rows : List α}
    {key : α → κ} {etype : α → String} {p : κ × Int}
    (hp : p ∈ sqlNetQuery rows key etype) :
    p.2 = netCount (rows.filter (fun r => key r = p.1)) etype := by
  unfold sqlNetQuery at hp
  have h1 := List.mem_of_mem_take hp
  have h2 := (List.mergeSort_perm
    (((rows.map key).dedup).map (fun k => (k, netCount (rows.filter (fun r => key r = k)) etype)))
    (fun a b => decide (b.2 ≤ a.2))).mem_iff.mp h1
  rcases List.mem_map.mp h2 with ⟨k, _, hk⟩
  rw [← hk]

/-! ### Claim C1: net counts, descending order, top 10 -/

/-- The ledger holds only add and remove events (true of every state the
code reaches: `record_reaction_event` is only ever called with the literals
`add` and `remove`). -/
def EventTypesWF (db : DB) : Prop :=
  ∀ e ∈ db.reaction_events, e.event_type = "add" ∨ e.event_type = "remove"

instance (db : DB) : Decidable (EventTypesWF db) :=
  inferInstanceAs (Decidable (∀ e ∈ db.reaction_events, e.event_type = "add" ∨ e.event_type = "remove"))

/-- Every event of the guild has exactly one `users` row for its author
(what the `user_id` primary key and the upsert-before-insert discipline of
`record_reaction_event` guarantee). -/
def AuthorsUnique (db : DB) (gid : Int) : Prop :=
  ∀ e ∈ guildEvents db gid,
    (db.users.filter (fun u => u.user_id = e.message_author_id)).length = 1

instance (db : DB) (gid : Int) : Decidable (AuthorsUnique db gid) :=
  inferInstanceAs (Decidable (∀ e ∈ guildEvents db gid,
    (db.users.filter (fun u => u.user_id = e.message_author_id)).length = 1))

/-- The pairs built from one event all inherit that event's author id, so a
key filter keeps either all of them or none. -/
theorem pairs_filter_key (e : EventRow) (k : Int) (l : List UserRow)
    (hl : ∀ u ∈ l, u.user_id = e.message_author_id) :
    (l.map (fun u => (e, u))).filter (fun p => p.2.user_id = k)
      = if e.message_author_id = k then l.map (fun u => (e, u)) else [] := by
  induction l with
  | nil => by_cases hk : e.message_author_id = k <;> simp [hk]
  | cons u rest ih =>
    have hu := hl u (List.mem_cons_self u rest)
    have ih2 := ih (fun x hx => hl x (List.mem_cons_of_mem u hx))
    by_cases hk : e.message_author_id = k <;>
      simp [List.filter_cons, hu, hk, ih2]

/-- Restricting the author join to one group key keeps exactly the events
whose `message_author_id` is that key (each joined pair inherits its
`user_id` from the event). -/
theorem joinAuthors_filter_key (db : DB) (rows : List EventRow) (k : Int) :
    (joinAuthors db rows).filter (fun p => p.2.user_id = k)
      = joinAuthors db (rows.filter (fun e => e.message_author_id = k)) := by
  induction rows with
  | nil => rfl
  | cons e rest ih =>
    have hpairs := pairs_filter_key e k
      (db.users.filter (fun u => u.user_id = e.message_author_id))
      (fun u hu => by simpa using (List.mem_filter.mp hu).2)
    simp only [joinAuthors, List.flatMap_cons, List.filter_append, List.filter_cons] at *
    rw [hpairs]
    by_cases hk : e.message_author_id = k
    · simp [hk, ih, List.flatMap_cons]
    · simp [hk, ih]

/-- When every event of the group resolves to exactly one `users` row, the
author join neither drops nor duplicates rows, so net counts agree. -/
theorem netCount_joinAuthors (db : DB) (rows : List EventRow)
    (h : ∀ e ∈ rows, (db.users.filter (fun u => u.user_id = e.message_author_id)).length = 1) :
    netCount (joinAuthors db rows) (fun p => p.1.event_type)
      = netCount rows (fun e => e.event_type) := by
  induction rows with
  | nil => rfl
  | cons e rest ih =>
    have h1 := h e (List.mem_cons_self e rest)
    rcases List.length_eq_one.mp h1 with ⟨u, hu⟩
    have ih2 := ih (fun x hx => h x (List.mem_cons_of_mem e hx))
    simp only [joinAuthors, List.flatMap_cons] at *
    rw [hu]
    simp [netCount_append, netCount_cons, netCount_nil, ih2]

/-- Claim C1 at one database and guild: both cited queries are sorted
descending by net count, limited to ten groups, and report, per group, the
number of add events minus the number of remove events of that group. -/
def C1Statement (db : DB) (gid : Int) : Prop :=
  ((server_top_reactions db gid).Pairwise (fun a b => b.2 ≤ a.2)
    ∧ (server_top_reactions db gid).length ≤ 10
    ∧ ∀ p ∈ server_top_reactions db gid,
        p.2 = countAdds ((guildEvents db gid).filter (fun e => e.emoji_name = p.1)) (fun e => e.event_type)
            - countRemoves ((guildEvents db gid).filter (fun e => e.emoji_name = p.1)) (fun e => e.event_type))
  ∧ ((topreactionsreceived db gid).Pairwise (fun a b => b.2 ≤ a.2)
    ∧ (topreactionsreceived db gid).length ≤ 10
    ∧ ∀ p ∈ topreactionsreceived db gid,
        p.2 = countAdds ((guildEvents db gid).filter (fun e => e.message_author_id = p.1)) (fun e => e.event_type)
            - countRemoves ((guildEvents db gid).filter (fun e => e.message_author_id = p.1)) (fun e => e.event_type))

/-- C1.  The aggregated net count of every group equals its add events minus
its remove events (so N adds and M removes of one key net to N-M), and both
cited queries return descending net counts limited to the top 10.  The two
hypotheses hold of every state the program reaches: only add and remove
events are inserted, and the author upsert precedes every event insert. -/
theorem C1_net_count_desc_top10 (db : DB) (gid : Int)
    (hwf : EventTypesWF db) (hu : AuthorsUnique db gid) : C1Statement db gid := by
  constructor
  · unfold server_top_reactions
    refine ⟨sqlNetQuery_sorted _ _ _, sqlNetQuery_length_le _ _ _, ?_⟩
    intro p hp
    rw [sqlNetQuery_mem hp]
    refine netCount_eq_counts _ _ ?_
    intro e he
    exact hwf e (List.mem_filter.mp (List.mem_filter.mp he).1).1
  · unfold topreactionsreceived
    refine ⟨sqlNetQuery_sorted _ _ _, sqlNetQuery_length_le _ _ _, ?_⟩
    intro p hp
    rw [sqlNetQuery_mem hp, joinAuthors_filter_key,
      netCount_joinAuthors db _ (fun e he => hu e (List.mem_filter.mp he).1)]
    refine netCount_eq_counts _ _ ?_
    intro e he
    exact hwf e (List.mem_filter.mp (List.mem_filter.mp he).1).1

/-- A small populated database: two users, one message by user 2 in guild 5,
and three events (two adds and one remove of emoji x by user 1). -/
def dbC1 : DB :=
  { users := [{ user_id := 1, username := "alice", discriminator := "0" },
              { user_id := 2, username := "bob", discriminator := "0" }]
    messages := [{ message_id := 100, channel_id := 7, guild_id := 5, author_id := 2 }]
    reaction_events := [
      { id := 1, reactor_user_id := 1, message_id := 100, message_author_id := 2,
        emoji_name := "x", emoji_id := none, event_type := "add", guild_id := some 5 },
      { id := 2, reactor_user_id := 1, message_id := 100, message_author_id := 2,
        emoji_name := "x", emoji_id := none, event_type := "add", guild_id := some 5 },
      { id := 3, reactor_user_id := 1, message_id := 100, message_author_id := 2,
        emoji_name := "x", emoji_id := none, event_type := "remove", guild_id := some 5 }]
    next_event_id := 4 }

/-- C1 witness: the property at a concrete populated database. -/
theorem C1_net_count_desc_top10_witness : C1Statement dbC1 5 :=
  C1_net_count_desc_top10 dbC1 5 (by decide) (by decide)

/-! ### Claim C3: community isolation -/

/-- Remove every ledger event recorded under guild `a`, leaving the lookup
tables untouched: the two-run comparison state. -/
def eraseGuildEvents (a : Int) (db : DB) : DB :=
  { db with reaction_events := db.reaction_events.filter (fun e => ¬ e.guild_id = some a) }

/-- The guild filter of every query already discards guild-a events, so
erasing them changes nothing a guild-b scan sees. -/
theorem guildEvents_erase (a b : Int) (db : DB) (hab : a ≠ b) :
    guildEvents (eraseGuildEvents a db) b = guildEvents db b := by
  unfold guildEvents eraseGuildEvents
  rw [List.filter_filter]
  refine List.filter_congr ?_
  intro e _
  by_cases h : e.guild_id = some b
  · simp [h, Ne.symm hab]
  · simp [h]

/-- C3.  Events recorded under community a are invisible to all six queries
scoped to a distinct community b: the results are identical with and without
the guild-a events in the ledger. -/
theorem C3_community_isolation (db : DB) (a b rid uid : Int) (em : String)
    (hab : a ≠ b) :
    server_top_reactions (eraseGuildEvents a db) b = server_top_reactions db b
    ∧ myusedreactions (eraseGuildEvents a db) b rid = myusedreactions db b rid
    ∧ top_emoji_users (eraseGuildEvents a db) b em = top_emoji_users db b em
    ∧ topreactionsreceived (eraseGuildEvents a db) b = topreactionsreceived db b
    ∧ user_top_received (eraseGuildEvents a db) b uid = user_top_received db b uid
    ∧ top_messages (eraseGuildEvents a db) b none = top_messages db b none
    ∧ top_messages (eraseGuildEvents a db) b (some em) = top_messages db b (some em) := by
  have hge := guildEvents_erase a b db hab
  have hus : (eraseGuildEvents a db).users = db.users := rfl
  have hms : (eraseGuildEvents a db).messages = db.messages := rfl
  refine ⟨?_, ?_, ?_, ?_, ?_, ?_, ?_⟩
  · unfold server_top_reactions
    rw [hge]
  · unfold myusedreactions
    rw [hge]
  · unfold top_emoji_users joinAuthors
    rw [hge, hus]
  · unfold topreactionsreceived joinAuthors
    rw [hge, hus]
  · unfold user_top_received
    rw [hge]
  · unfold top_messages joinMsgAuthors
    rw [hge, hus, hms]
  · unfold top_messages joinMsgAuthors
    rw [hge, hus, hms]

/-- A database holding events of two guilds (1 and 2). -/
def dbC3 : DB :=
  { users := [{ user_id := 1, username := "alice", discriminator := "0" },
              { user_id := 2, username := "bob", discriminator := "0" }]
    messages := [{ message_id := 100, channel_id := 7, guild_id := 1, author_id := 2 },
                 { message_id := 200, channel_id := 8, guild_id := 2, author_id := 1 }]
    reaction_events := [
      { id := 1, reactor_user_id := 1, message_id := 100, message_author_id := 2,
        emoji_name := "x", emoji_id := none, event_type := "add", guild_id := some 1 },
      { id := 2, reactor_user_id := 2, message_id := 200, message_author_id := 1,
        emoji_name := "y", emoji_id := none, event_type := "add", guild_id := some 2 }]
    next_event_id := 3 }

/-- C3 witness: isolation at a concrete two-guild database. -/
theorem C3_community_isolation_witness :
    server_top_reactions (eraseGuildEvents 1 dbC3) 2 = server_top_reactions dbC3 2
    ∧ myusedreactions (eraseGuildEvents 1 dbC3) 2 7 = myusedreactions dbC3 2 7
    ∧ top_emoji_users (eraseGuildEvents 1 dbC3) 2 "y" = top_emoji_users dbC3 2 "y"
    ∧ topreactionsreceived (eraseGuildEvents 1 dbC3) 2 = topreactionsreceived dbC3 2
    ∧ user_top_received (eraseGuildEvents 1 dbC3) 2 1 = user_top_received dbC3 2 1
    ∧ top_messages (eraseGuildEvents 1 dbC3) 2 none = top_messages dbC3 2 none
    ∧ top_messages (eraseGuildEvents 1 dbC3) 2 (some "y") = top_messages dbC3 2 (some "y") :=
  C3_community_isolation dbC3 1 2 7 1 "y" (by decide)
/-! ### Claim C10: emojis are distinguished by name only -/

/-- Rewrite one event's stored `emoji_id`, leaving every other column
alone. -/
def setEmojiId (g : EventRow → Option Int) (e : EventRow) : EventRow :=
  { e with emoji_id := g e }

/-- Rewrite the stored `emoji_id` of every event arbitrarily. -/
def mapEmojiIds (g : EventRow → Option Int) (db : DB) : DB :=
  { db with reaction_events := db.reaction_events.map (setEmojiId g) }

theorem netCount_map {α : Type} (l : List α) (f : α → α) (etype : α → String)
    (he : ∀ r, etype (f r) = etype r) :
    netCount (l.map f) etype = netCount l etype := by
  unfold netCount
  rw [List.map_map]
  exact congrArg _ (List.map_congr_left (fun a _ => by simp [Function.comp, he a]))

/-- A row-by-row rewrite that touches neither the group key nor the event
type leaves any query of the shared shape unchanged. -/
theorem sqlNetQuery_map {α κ : Type} [DecidableEq κ] (l : List α) (f : α → α)
    (key : α → κ) (etype : α → String)
    (hk : ∀ r, key (f r) = key r) (he : ∀ r, etype (f r) = etype r) :
    sqlNetQuery (l.map f) key etype = sqlNetQuery l key etype := by
  have hkeys : (l.map f).map key = l.map key := by
    rw [List.map_map]
    exact List.map_congr_left (fun a _ => by simp [Function.comp, hk a])
  have hgrouped :
      ((l.map f).map key).dedup.map
          (fun k => (k, netCount ((l.map f).filter (fun r => key r = k)) etype))
        = (l.map key).dedup.map
          (fun k => (k, netCount (l.filter (fun r => key r = k)) etype)) := by
    rw [hkeys]
    refine List.map_congr_left ?_
    intro k _
    show (k, netCount ((l.map f).filter (fun r => key r = k)) etype)
      = (k, netCount (l.filter (fun r => key r = k)) etype)
    have hflt : (l.map f).filter (fun r => key r = k)
        = (l.filter (fun r => key r = k)).map f := by
      rw [List.filter_map]
      refine congrArg (List.map f) (List.filter_congr ?_)
      intro a _
      simp [Function.comp, hk a]
    rw [hflt, netCount_map _ f etype he]
  unfold sqlNetQuery
  rw [hgrouped]

theorem guildEvents_mapEmojiIds (g : EventRow → Option Int) (db : DB) (gid : Int) :
    guildEvents (mapEmojiIds g db) gid
      = (guildEvents db gid).map (setEmojiId g) := by
  unfold guildEvents mapEmojiIds
  exact List.filter_map (setEmojiId g) db.reaction_events

/-- Rewriting a column the author join does not read commutes with the
join. -/
theorem joinAuthors_map_event (db : DB) (evs : List EventRow) (f : EventRow → EventRow)
    (hf : ∀ e, (f e).message_author_id = e.message_author_id) :
    joinAuthors db (evs.map f) = (joinAuthors db evs).map (fun p => (f p.1, p.2)) := by
  unfold joinAuthors
  rw [List.flatMap_map, List.map_flatMap]
  refine congrArg _ (funext ?_)
  intro e
  rw [hf e, List.map_map]
  rfl

/-- Rewriting a column the message and author joins do not read commutes
with the joins. -/
theorem joinMsgAuthors_map_event (db : DB) (evs : List EventRow) (f : EventRow → EventRow)
    (hf : ∀ e, (f e).message_id = e.message_id) :
    joinMsgAuthors db (evs.map f) = (joinMsgAuthors db evs).map (fun t => (f t.1, t.2)) := by
  unfold joinMsgAuthors
  rw [List.flatMap_map, List.map_flatMap]
  refine congrArg _ (funext ?_)
  intro e
  rw [hf e, List.map_flatMap]
  refine congrArg _ (funext ?_)
  intro m
  rw [List.map_map]
  rfl

/-- C10.  Every aggregation groups and filters on the stored emoji name
alone: rewriting every stored custom-emoji id arbitrarily changes no query
result, and ingestion stores only the name of a custom emoji, so two custom
emojis sharing a name land in one group. -/
theorem C10_emoji_identity_is_name (db : DB) (g : EventRow → Option Int)
    (gid rid uid i1 i2 : Int) (em : String) :
    server_top_reactions (mapEmojiIds g db) gid = server_top_reactions db gid
    ∧ myusedreactions (mapEmojiIds g db) gid rid = myusedreactions db gid rid
    ∧ top_emoji_users (mapEmojiIds g db) gid em = top_emoji_users db gid em
    ∧ topreactionsreceived (mapEmojiIds g db) gid = topreactionsreceived db gid
    ∧ user_top_received (mapEmojiIds g db) gid uid = user_top_received db gid uid
    ∧ top_messages (mapEmojiIds g db) gid none = top_messages db gid none
    ∧ top_messages (mapEmojiIds g db) gid (some em) = top_messages db gid (some em)
    ∧ emojiName (DEmoji.custom em i1) = emojiName (DEmoji.custom em i2) := by
  have hja : joinAuthors (mapEmojiIds g db) = joinAuthors db := rfl
  have hjm : joinMsgAuthors (mapEmojiIds g db) = joinMsgAuthors db := rfl
  refine ⟨?_, ?_, ?_, ?_, ?_, ?_, ?_, rfl⟩
  · unfold server_top_reactions
    rw [guildEvents_mapEmojiIds]
    exact sqlNetQuery_map _ (setEmojiId g) _ _ (fun r => rfl) (fun r => rfl)
  · unfold myusedreactions
    rw [guildEvents_mapEmojiIds]
    rw [show ((guildEvents db gid).map (setEmojiId g)).filter (fun e => e.reactor_user_id = rid)
        = ((guildEvents db gid).filter (fun e => e.reactor_user_id = rid)).map (setEmojiId g)
      from List.filter_map (setEmojiId g) (guildEvents db gid)]
    exact sqlNetQuery_map _ (setEmojiId g) _ _ (fun r => rfl) (fun r => rfl)
  · unfold top_emoji_users
    rw [hja, guildEvents_mapEmojiIds]
    rw [show ((guildEvents db gid).map (setEmojiId g)).filter (fun e => e.emoji_name = em)
        = ((guildEvents db gid).filter (fun e => e.emoji_name = em)).map (setEmojiId g)
      from List.filter_map (setEmojiId g) (guildEvents db gid)]
    rw [joinAuthors_map_event db ((guildEvents db gid).filter (fun e => e.emoji_name = em))
      (setEmojiId g) (fun e => rfl)]
    exact sqlNetQuery_map _ (fun p => (setEmojiId g p.1, p.2)) _ _ (fun r => rfl) (fun r => rfl)
  · unfold topreactionsreceived
    rw [hja, guildEvents_mapEmojiIds]
    rw [joinAuthors_map_event db (guildEvents db gid) (setEmojiId g) (fun e => rfl)]
    exact sqlNetQuery_map _ (fun p => (setEmojiId g p.1, p.2)) _ _ (fun r => rfl) (fun r => rfl)
  · unfold user_top_received
    rw [guildEvents_mapEmojiIds]
    rw [show ((guildEvents db gid).map (setEmojiId g)).filter (fun e => e.message_author_id = uid)
        = ((guildEvents db gid).filter (fun e => e.message_author_id = uid)).map (setEmojiId g)
      from List.filter_map (setEmojiId g) (guildEvents db gid)]
    exact sqlNetQuery_map _ (setEmojiId g) _ _ (fun r => rfl) (fun r => rfl)
  · show sqlNetQuery (joinMsgAuthors (mapEmojiIds g db) (guildEvents (mapEmojiIds g db) gid))
        (fun t => t.2.1.message_id) (fun t => t.1.event_type)
      = sqlNetQuery (joinMsgAuthors db (guildEvents db gid))
        (fun t => t.2.1.message_id) (fun t => t.1.event_type)
    rw [hjm, guildEvents_mapEmojiIds]
    rw [joinMsgAuthors_map_event db (guildEvents db gid) (setEmojiId g) (fun e => rfl)]
    exact sqlNetQuery_map _ (fun t => (setEmojiId g t.1, t.2)) _ _ (fun r => rfl) (fun r => rfl)
  · show sqlNetQuery (joinMsgAuthors (mapEmojiIds g db)
        ((guildEvents (mapEmojiIds g db) gid).filter (fun e => e.emoji_name = em)))
        (fun t => t.2.1.message_id) (fun t => t.1.event_type)
      = sqlNetQuery (joinMsgAuthors db
        ((guildEvents db gid).filter (fun e => e.emoji_name = em)))
        (fun t => t.2.1.message_id) (fun t => t.1.event_type)
    rw [hjm, guildEvents_mapEmojiIds]
    rw [show ((guildEvents db gid).map (setEmojiId g)).filter (fun e => e.emoji_name = em)
        = ((guildEvents db gid).filter (fun e => e.emoji_name = em)).map (setEmojiId g)
      from List.filter_map (setEmojiId g) (guildEvents db gid)]
    rw [joinMsgAuthors_map_event db ((guildEvents db gid).filter (fun e => e.emoji_name = em))
      (setEmojiId g) (fun e => rfl)]
    exact sqlNetQuery_map _ (fun t => (setEmojiId g t.1, t.2)) _ _ (fun r => rfl) (fun r => rfl)

/-! ### Claim C4: a message with no community context -/

/-- A live message with no guild (a direct message). -/
def msgNoGuild : DMessage :=
  { id := 300, channel_id := 9, guild := none,
    author := some { id := 3, uname := "carol", discriminator := "0", bot := false } }

/-- C4.  Recording a reaction on a message that carries no guild is not a
logged rejection: `update_message_in_db` evaluates `message.guild.id`, which
raises `AttributeError`; `record_reaction_event` propagates the failure to
its caller.  No event row is written, but nothing is logged and the
exception escapes. -/
theorem C4_no_guild_raises_attribute_error :
    (record_reaction_event { id := 4, uname := "dan", discriminator := "0", bot := false }
        msgNoGuild (DEmoji.unicode "x") "add" emptyDB).exn
      = some "AttributeError: NoneType object has no attribute id (message.guild)"
    ∧ (record_reaction_event { id := 4, uname := "dan", discriminator := "0", bot := false }
        msgNoGuild (DEmoji.unicode "x") "add" emptyDB).db.reaction_events = [] :=
  ⟨rfl, rfl⟩

/-! ### Claim C9: bot reactions -/

/-- The identity the bot runs as (`bot.user`). -/
def botSelf : DUser := { id := 50, uname := "thebot", discriminator := "0", bot := true }

/-- A different bot account, reacting as an ordinary member. -/
def otherBot : DUser := { id := 51, uname := "otherbot", discriminator := "0", bot := true }

/-- A guild message authored by a human. -/
def msgByHuman : DMessage :=
  { id := 400, channel_id := 9, guild := some 5,
    author := some { id := 3, uname := "carol", discriminator := "0", bot := false } }

/-- A guild message authored by a bot account. -/
def msgByBot : DMessage :=
  { id := 401, channel_id := 9, guild := some 5, author := some otherBot }

/-- C9 counterexample: the live handler only skips the ingesting bot itself
(`user == bot.user`), so a reaction sent by a different bot account is
recorded; and backfill does not filter bot message authors, so a bot
receives a counted reaction there. -/
theorem C9_counterexample_bot_events_recorded :
    otherBot.bot = true
    ∧ (on_reaction_add botSelf msgByHuman (DEmoji.unicode "x") otherBot
        emptyDB).db.reaction_events.map (fun e => e.reactor_user_id) = [otherBot.id]
    ∧ (backfill_reactions
        [{ cname := "general",
           items := [HistItem.fetched msgByBot
             [{ emoji := DEmoji.unicode "x",
                rusers := [{ id := 3, uname := "carol", discriminator := "0", bot := false }] }]] }]
        emptyDB).1.reaction_events.map (fun e => e.message_author_id) = [otherBot.id] :=
  ⟨rfl, rfl, rfl⟩

/-- C9 (amended).  What the code does filter: during backfill, bot reactors
are skipped (bot users in a reaction user list contribute nothing to the
walk), and live ingestion skips exactly the ingesting bot itself.  Bot
message authors are not filtered on either path, and live reactions by
other bot accounts are recorded. -/
theorem C9_bot_exclusion_amended :
    (∀ (message : DMessage) (emoji : DEmoji) (users : List DUser) (db : DB),
      usersLoop message emoji users db
        = usersLoop message emoji (users.filter (fun u => !u.bot)) db)
    ∧ (∀ (botUser : DUser) (message : DMessage) (emoji : DEmoji) (user : DUser) (db : DB),
        user = botUser → on_reaction_add botUser message emoji user db = { db := db, exn := none }) := by
  constructor
  · intro message emoji users db
    induction users generalizing db with
    | nil => rfl
    | cons u rest ih =>
      by_cases hb : u.bot
      · have hfb : (!u.bot) = false := by simp [hb]
        rw [List.filter_cons, hfb]
        simp only [Bool.false_eq_true, if_neg, not_false_iff]
        simp only [usersLoop]
        rw [if_pos hb]
        exact ih db
      · have hfb : (!u.bot) = true := by simp [hb]
        rw [List.filter_cons, hfb]
        simp only [if_pos]
        simp only [usersLoop]
        rw [if_neg hb, if_neg hb]
        cases hexn : (record_reaction_event u message emoji "add" db).exn with
        | some e => simp only [hexn]
        | none =>
          simp only [hexn]
          exact ih _
  · intro botUser message emoji user db h
    unfold on_reaction_add
    rw [if_pos h]

/-! ### Claim C5: the ledger is append-only -/

/-- One record call only ever appends to `reaction_events` (nothing is
updated or deleted), whether it returns or raises. -/
theorem record_events_shape (reactor : DUser) (message : DMessage) (emoji : DEmoji)
    (event_type : String) (db : DB) :
    ∃ t, (record_reaction_event reactor message emoji event_type db).db.reaction_events
      = db.reaction_events ++ t := by
  cases hauth : message.author with
  | none =>
    simp only [record_reaction_event, update_user_in_db, hauth]
    exact ⟨[], (List.append_nil _).symm⟩
  | some a =>
    cases hg : message.guild with
    | none =>
      simp only [record_reaction_event, update_message_in_db, update_user_in_db, hauth, hg]
      exact ⟨[], (List.append_nil _).symm⟩
    | some g =>
      simp only [record_reaction_event, update_message_in_db, update_user_in_db, hauth, hg]
      exact ⟨_, rfl⟩

theorem usersLoop_events_shape (message : DMessage) (emoji : DEmoji)
    (users : List DUser) (db : DB) :
    ∃ t, (usersLoop message emoji users db).1.reaction_events = db.reaction_events ++ t := by
  induction users generalizing db with
  | nil => exact ⟨[], (List.append_nil _).symm⟩
  | cons u rest ih =>
    simp only [usersLoop]
    by_cases hb : u.bot
    · rw [if_pos hb]
      exact ih db
    · rw [if_neg hb]
      rcases record_events_shape u message emoji "add" db with ⟨t1, ht1⟩
      cases hexn : (record_reaction_event u message emoji "add" db).exn with
      | some e =>
        simp only [hexn]
        exact ⟨t1, ht1⟩
      | none =>
        simp only [hexn]
        rcases ih (record_reaction_event u message emoji "add" db).db with ⟨t2, ht2⟩
        exact ⟨t1 ++ t2, by rw [ht2, ht1, List.append_assoc]⟩

theorem reactionsLoop_events_shape (message : DMessage) (reactions : List DReaction) (db : DB) :
    ∃ t, (reactionsLoop message reactions db).1.reaction_events = db.reaction_events ++ t := by
  induction reactions generalizing db with
  | nil => exact ⟨[], (List.append_nil _).symm⟩
  | cons r rest ih =>
    simp only [reactionsLoop]
    rcases usersLoop_events_shape message r.emoji r.rusers db with ⟨t1, ht1⟩
    cases hu : usersLoop message r.emoji r.rusers db with
    | mk db1 x =>
      cases x with
      | some e =>
        simp only []
        exact ⟨t1, by rw [← ht1, hu]⟩
      | none =>
        simp only []
        rcases ih db1 with ⟨t2, ht2⟩
        refine ⟨t1 ++ t2, ?_⟩
        rw [ht2]
        have : db1.reaction_events = db.reaction_events ++ t1 := by rw [← ht1, hu]
        rw [this, List.append_assoc]

theorem itemsLoop_events_shape (items : List HistItem) (db : DB) :
    ∃ t, (itemsLoop items db).1.reaction_events = db.reaction_events ++ t := by
  induction items generalizing db with
  | nil => exact ⟨[], (List.append_nil _).symm⟩
  | cons it rest ih =>
    cases it with
    | fetchFail e => exact ⟨[], (List.append_nil _).symm⟩
    | fetched m rs =>
      simp only [itemsLoop]
      rcases reactionsLoop_events_shape m rs db with ⟨t1, ht1⟩
      cases hr : reactionsLoop m rs db with
      | mk db1 x =>
        cases x with
        | some e =>
          simp only []
          exact ⟨t1, by rw [← ht1, hr]⟩
        | none =>
          simp only []
          rcases ih db1 with ⟨t2, ht2⟩
          refine ⟨t1 ++ t2, ?_⟩
          rw [ht2]
          have : db1.reaction_events = db.reaction_events ++ t1 := by rw [← ht1, hr]
          rw [this, List.append_assoc]

theorem backfill_events_shape (channels : List Channel) (db : DB) :
    ∃ t, (backfill_reactions channels db).1.reaction_events = db.reaction_events ++ t := by
  induction channels generalizing db with
  | nil => exact ⟨[], (List.append_nil _).symm⟩
  | cons c rest ih =>
    simp only [backfill_reactions]
    rcases itemsLoop_events_shape c.items db with ⟨t1, ht1⟩
    rcases ih (walkChannel c db).1 with ⟨t2, ht2⟩
    refine ⟨t1 ++ t2, ?_⟩
    rw [ht2]
    have : (walkChannel c db).1.reaction_events = db.reaction_events ++ t1 := ht1
    rw [this, List.append_assoc]

theorem runOp_events_shape (op : Op) (db : DB) :
    ∃ t, (runOp op db).reaction_events = db.reaction_events ++ t := by
  cases op with
  | live reactor message emoji event_type => exact record_events_shape reactor message emoji event_type db
  | backfill channels => exact backfill_events_shape channels db

theorem runOps_events_shape (ops : List Op) (db : DB) :
    ∃ t, (runOps ops db).reaction_events = db.reaction_events ++ t := by
  induction ops generalizing db with
  | nil => exact ⟨[], (List.append_nil _).symm⟩
  | cons op rest ih =>
    simp only [runOps, List.foldl_cons]
    rcases runOp_events_shape op db with ⟨t1, ht1⟩
    rcases ih (runOp op db) with ⟨t2, ht2⟩
    refine ⟨t1 ++ t2, ?_⟩
    have h2 : (runOps rest (runOp op db)).reaction_events = (runOp op db).reaction_events ++ t2 := ht2
    simp only [runOps] at h2
    rw [h2, ht1, List.append_assoc]

/-- C5.  No operation of the public contract updates or deletes an existing
ledger row: after any single operation and after any sequence of operations
(live record calls and backfill passes), the prior `reaction_events` rows
are still present, in order and unchanged, as a prefix of the new list. -/
theorem C5_ledger_append_only (op : Op) (ops : List Op) (db : DB) :
    (∃ t, (runOp op db).reaction_events = db.reaction_events ++ t)
    ∧ (∃ t, (runOps ops db).reaction_events = db.reaction_events ++ t) :=
  ⟨runOp_events_shape op db, runOps_events_shape ops db⟩

/-! ### Claim C8: a failing channel does not abort backfill -/

/-- Walking a list of channels decomposes: the channels after any point
continue from the state the earlier channels left, whatever happened in
them. -/
theorem backfill_append (xs ys : List Channel) (db : DB) :
    (backfill_reactions (xs ++ ys) db).1
      = (backfill_reactions ys (backfill_reactions xs db).1).1 := by
  induction xs generalizing db with
  | nil => rfl
  | cons c rest ih =>
    simp only [List.cons_append, backfill_reactions]
    exact ih (walkChannel c db).1

/-- C8.  When walking one channel raises, backfill still reconciles the
remaining channels (starting from the partially walked state), the error is
logged for that channel, every previously recorded event is intact, and
channels already processed are unaffected. -/
theorem C8_channel_failure_does_not_abort (c : Channel) (rest : List Channel) (db : DB)
    (hfail : (walkChannel c db).2 ≠ none) :
    (backfill_reactions (c :: rest) db).1 = (backfill_reactions rest (walkChannel c db).1).1
    ∧ (∃ e, (walkChannel c db).2 = some e
        ∧ (backfill_reactions (c :: rest) db).2
          = ("Error in channel " ++ c.cname ++ ": " ++ e)
            :: (backfill_reactions rest (walkChannel c db).1).2)
    ∧ (∃ t, (backfill_reactions (c :: rest) db).1.reaction_events = db.reaction_events ++ t)
    ∧ (∀ pre : List Channel,
        (backfill_reactions (pre ++ c :: rest) db).1
          = (backfill_reactions (c :: rest) (backfill_reactions pre db).1).1) := by
  refine ⟨?_, ?_, ?_, ?_⟩
  · simp only [backfill_reactions]
  · cases hw : (walkChannel c db).2 with
    | none => exact absurd hw hfail
    | some e => exact ⟨e, rfl, by simp only [backfill_reactions, hw]⟩
  · exact backfill_events_shape (c :: rest) db
  · intro pre
    exact backfill_append pre (c :: rest) db

/-- A channel whose history fetch raises immediately. -/
def badChannel : Channel := { cname := "bad", items := [HistItem.fetchFail "boom"] }

/-- A healthy channel with one reacted message. -/
def goodChannel : Channel :=
  { cname := "general",
    items := [HistItem.fetched msgByHuman
      [{ emoji := DEmoji.unicode "x",
         rusers := [{ id := 4, uname := "dan", discriminator := "0", bot := false }] }]] }

/-- C8 witness: a concrete run where the first channel fails. -/
theorem C8_channel_failure_does_not_abort_witness :
    (backfill_reactions (badChannel :: [goodChannel]) emptyDB).1
        = (backfill_reactions [goodChannel] (walkChannel badChannel emptyDB).1).1
    ∧ (∃ e, (walkChannel badChannel emptyDB).2 = some e
        ∧ (backfill_reactions (badChannel :: [goodChannel]) emptyDB).2
          = ("Error in channel " ++ badChannel.cname ++ ": " ++ e)
            :: (backfill_reactions [goodChannel] (walkChannel badChannel emptyDB).1).2)
    ∧ (∃ t, (backfill_reactions (badChannel :: [goodChannel]) emptyDB).1.reaction_events
        = emptyDB.reaction_events ++ t)
    ∧ (∀ pre : List Channel,
        (backfill_reactions (pre ++ badChannel :: [goodChannel]) emptyDB).1
          = (backfill_reactions (badChannel :: [goodChannel]) (backfill_reactions pre emptyDB).1).1) :=
  C8_channel_failure_does_not_abort badChannel [goodChannel] emptyDB (by decide)

/-! ### Claim C2: referential completeness -/

/-- Every event row resolves its reactor, its message author and its message
to existing rows. -/
def refComplete (db : DB) : Prop :=
  ∀ e ∈ db.reaction_events,
    userExists db e.reactor_user_id ∧ userExists db e.message_author_id
      ∧ msgExists db e.message_id

theorem userExists_update_user (u : DUser) (db : DB) (i : Int) (h : userExists db i) :
    userExists (update_user_in_db u db) i := by
  rcases h with ⟨r, hr, hid⟩
  have hmem : r ∈ (if userExists db u.id then db.users
      else db.users ++ [{ user_id := u.id, username := u.uname, discriminator := u.discriminator }]) := by
    by_cases hex : userExists db u.id
    · rw [if_pos hex]
      exact hr
    · rw [if_neg hex]
      exact List.mem_append_left _ hr
  refine ⟨if r.user_id = u.id then { r with username := u.uname, discriminator := u.discriminator } else r,
    List.mem_map.mpr ⟨r, hmem, rfl⟩, ?_⟩
  by_cases hru : r.user_id = u.id
  · rw [if_pos hru]
    exact hid
  · rw [if_neg hru]
    exact hid

/-- After the upsert, a row with the upserted id exists. -/
theorem userExists_self (u : DUser) (db : DB) : userExists (update_user_in_db u db) u.id := by
  by_cases hex : userExists db u.id
  · rcases hex with ⟨r, hr, hid⟩
    exact userExists_update_user u db u.id ⟨r, hr, hid⟩
  · refine ⟨_, List.mem_map.mpr
      ⟨{ user_id := u.id, username := u.uname, discriminator := u.discriminator }, ?_, rfl⟩, ?_⟩
    · rw [if_neg hex]
      exact List.mem_append_right _ (List.mem_singleton.mpr rfl)
    · simp

theorem userExists_of_users_eq {db db' : DB} (h : db.users = db'.users) (i : Int)
    (hu : userExists db i) : userExists db' i := by
  rcases hu with ⟨r, hr, hi⟩
  exact ⟨r, h ▸ hr, hi⟩

theorem msgExists_mono {db db' : DB} (h : ∀ r ∈ db.messages, r ∈ db'.messages) (i : Int)
    (hm : msgExists db i) : msgExists db' i := by
  rcases hm with ⟨r, hr, hi⟩
  exact ⟨r, h r hr, hi⟩

/-- What a successful message upsert does to the state: the other tables are
untouched, message rows only grow, and the upserted id now resolves. -/
theorem update_message_ok_shape (m : DMessage) (db db' : DB)
    (h : update_message_in_db m db = Except.ok db') :
    db'.users = db.users ∧ db'.reaction_events = db.reaction_events
    ∧ (∀ r ∈ db.messages, r ∈ db'.messages) ∧ msgExists db' m.id := by
  unfold update_message_in_db at h
  cases hg : m.guild with
  | none =>
    rw [hg] at h
    exact Except.noConfusion h
  | some g =>
    cases ha : m.author with
    | none =>
      rw [hg, ha] at h
      exact Except.noConfusion h
    | some a =>
      rw [hg, ha] at h
      injection h with h'
      subst h'
      refine ⟨rfl, rfl, ?_, ?_⟩
      · intro r hr
        by_cases hex : msgExists db m.id
        · rw [if_pos hex]
          exact hr
        · rw [if_neg hex]
          exact List.mem_append_left _ hr
      · by_cases hex : msgExists db m.id
        · rcases hex with ⟨r, hr, hi⟩
          have hex2 : msgExists db m.id := ⟨r, hr, hi⟩
          refine ⟨r, ?_, hi⟩
          rw [if_pos hex2]
          exact hr
        · refine ⟨{ message_id := m.id, channel_id := m.channel_id, guild_id := g, author_id := a.id }, ?_, rfl⟩
          rw [if_neg hex]
          exact List.mem_append_right _ (List.mem_singleton.mpr rfl)

theorem refComplete_update_user (u : DUser) (db : DB) (h : refComplete db) :
    refComplete (update_user_in_db u db) := by
  intro e he
  rcases h e he with ⟨h1, h2, h3⟩
  exact ⟨userExists_update_user u db _ h1, userExists_update_user u db _ h2, h3⟩

/-- A record call preserves referential completeness: the reactor, author
and message upserts come before the event insert, and nothing is ever
removed from the lookup tables. -/
theorem record_pres_refComplete (reactor : DUser) (message : DMessage) (emoji : DEmoji)
    (event_type : String) (db : DB) (h : refComplete db) :
    refComplete (record_reaction_event reactor message emoji event_type db).db := by
  cases hauth : message.author with
  | none =>
    simp only [record_reaction_event, hauth]
    exact refComplete_update_user reactor db h
  | some a =>
    have rc2 : refComplete (update_user_in_db a (update_user_in_db reactor db)) :=
      refComplete_update_user a _ (refComplete_update_user reactor db h)
    cases hok : update_message_in_db message (update_user_in_db a (update_user_in_db reactor db)) with
    | error e =>
      simp only [record_reaction_event, hauth, hok]
      exact rc2
    | ok db3 =>
      simp only [record_reaction_event, hauth, hok]
      rcases update_message_ok_shape message _ db3 hok with ⟨hus, hev, hmono, hmid⟩
      intro e he
      rcases List.mem_append.mp he with hold | hnew
      · rw [hev] at hold
        rcases rc2 e hold with ⟨h1, h2, h3⟩
        exact ⟨userExists_of_users_eq hus.symm _ h1,
          userExists_of_users_eq hus.symm _ h2, msgExists_mono hmono _ h3⟩
      · rw [List.mem_singleton.mp hnew]
        refine ⟨?_, ?_, hmid⟩
        · refine userExists_of_users_eq hus.symm _ ?_
          exact userExists_update_user a _ _ (userExists_self reactor db)
        · exact userExists_of_users_eq hus.symm _ (userExists_self a _)

/-! Generic preservation of a state predicate through the backfill loops and
the operation sequence; used for the referential and the guild-consistency
invariants. -/

/-- The message of one history item, when it is a fetched message. -/
def itemMsgs : HistItem → List DMessage
  | HistItem.fetched m _ => [m]
  | HistItem.fetchFail _ => []

/-- All messages walked in one channel. -/
def channelMsgs (c : Channel) : List DMessage := c.items.flatMap itemMsgs

/-- All messages walked in a backfill pass. -/
def channelsMsgs (cs : List Channel) : List DMessage := cs.flatMap channelMsgs

/-- All messages an operation touches. -/
def opMsgs : Op → List DMessage
  | Op.live _ m _ _ => [m]
  | Op.backfill cs => channelsMsgs cs

/-- All messages a sequence of operations touches. -/
def opsMsgs (ops : List Op) : List DMessage := ops.flatMap opMsgs

theorem usersLoop_pres (P : DB → Prop) (message : DMessage) (emoji : DEmoji)
    (hstep : ∀ (u : DUser) (db : DB), P db → P (record_reaction_event u message emoji "add" db).db)
    (users : List DUser) (db : DB) (h : P db) :
    P (usersLoop message emoji users db).1 := by
  induction users generalizing db with
  | nil => exact h
  | cons u rest ih =>
    simp only [usersLoop]
    by_cases hb : u.bot
    · rw [if_pos hb]
      exact ih db h
    · rw [if_neg hb]
      cases hexn : (record_reaction_event u message emoji "add" db).exn with
      | some e =>
        simp only [hexn]
        exact hstep u db h
      | none =>
        simp only [hexn]
        exact ih _ (hstep u db h)

theorem reactionsLoop_pres (P : DB → Prop) (message : DMessage)
    (hstep : ∀ (u : DUser) (em : DEmoji) (db : DB),
      P db → P (record_reaction_event u message em "add" db).db)
    (reactions : List DReaction) (db : DB) (h : P db) :
    P (reactionsLoop message reactions db).1 := by
  induction reactions generalizing db with
  | nil => exact h
  | cons r rest ih =>
    have h1 : P (usersLoop message r.emoji r.rusers db).1 :=
      usersLoop_pres P message r.emoji (fun u db0 h0 => hstep u r.emoji db0 h0) r.rusers db h
    cases hu : usersLoop message r.emoji r.rusers db with
    | mk db1 x =>
      rw [hu] at h1
      cases x with
      | some e => simpa [reactionsLoop, hu] using h1
      | none =>
        simp only [reactionsLoop, hu]
        exact ih db1 h1

theorem itemsLoop_pres (P : DB → Prop) (S : List DMessage)
    (hstep : ∀ (u : DUser) (m : DMessage) (em : DEmoji) (db : DB),
      m ∈ S → P db → P (record_reaction_event u m em "add" db).db)
    (items : List HistItem) (hsub : ∀ m ∈ items.flatMap itemMsgs, m ∈ S)
    (db : DB) (h : P db) : P (itemsLoop items db).1 := by
  induction items generalizing db with
  | nil => exact h
  | cons it rest ih =>
    have hsub2 : ∀ m ∈ rest.flatMap itemMsgs, m ∈ S := by
      intro m2 hm2
      refine hsub m2 ?_
      rw [List.flatMap_cons]
      exact List.mem_append_right _ hm2
    cases it with
    | fetchFail e => exact h
    | fetched m rs =>
      have hm : m ∈ S := by
        refine hsub m ?_
        rw [List.flatMap_cons]
        exact List.mem_append_left _ (by simp [itemMsgs])
      have h1 : P (reactionsLoop m rs db).1 :=
        reactionsLoop_pres P m (fun u em db0 h0 => hstep u m em db0 hm h0) rs db h
      cases hr : reactionsLoop m rs db with
      | mk db1 x =>
        rw [hr] at h1
        cases x with
        | some e => simpa [itemsLoop, hr] using h1
        | none =>
          simp only [itemsLoop, hr]
          exact ih hsub2 db1 h1

theorem backfill_pres (P : DB → Prop) (S : List DMessage)
    (hstep : ∀ (u : DUser) (m : DMessage) (em : DEmoji) (db : DB),
      m ∈ S → P db → P (record_reaction_event u m em "add" db).db)
    (channels : List Channel) (hsub : ∀ m ∈ channelsMsgs channels, m ∈ S)
    (db : DB) (h : P db) : P (backfill_reactions channels db).1 := by
  induction channels generalizing db with
  | nil => exact h
  | cons c rest ih =>
    have hsubc : ∀ m ∈ c.items.flatMap itemMsgs, m ∈ S := by
      intro m2 hm2
      refine hsub m2 ?_
      unfold channelsMsgs
      rw [List.flatMap_cons]
      exact List.mem_append_left _ hm2
    have hsub2 : ∀ m ∈ channelsMsgs rest, m ∈ S := by
      intro m2 hm2
      refine hsub m2 ?_
      unfold channelsMsgs
      rw [List.flatMap_cons]
      exact List.mem_append_right _ hm2
    have h1 : P (walkChannel c db).1 := itemsLoop_pres P S hstep c.items hsubc db h
    simp only [backfill_reactions]
    exact ih hsub2 (walkChannel c db).1 h1

theorem runOp_pres (P : DB → Prop) (S : List DMessage)
    (hstep : ∀ (u : DUser) (m : DMessage) (em : DEmoji) (et : String) (db : DB),
      m ∈ S → P db → P (record_reaction_event u m em et db).db)
    (op : Op) (hsub : ∀ m ∈ opMsgs op, m ∈ S) (db : DB) (h : P db) :
    P (runOp op db) := by
  cases op with
  | live reactor m emoji event_type =>
    exact hstep reactor m emoji event_type db (hsub m (by simp [opMsgs])) h
  | backfill channels =>
    exact backfill_pres P S (fun u m em db0 hm h0 => hstep u m em "add" db0 hm h0)
      channels (fun m hm => hsub m hm) db h

theorem runOps_pres (P : DB → Prop) (S : List DMessage)
    (hstep : ∀ (u : DUser) (m : DMessage) (em : DEmoji) (et : String) (db : DB),
      m ∈ S → P db → P (record_reaction_event u m em et db).db)
    (ops : List Op) (hsub : ∀ m ∈ opsMsgs ops, m ∈ S) (db : DB) (h : P db) :
    P (runOps ops db) := by
  induction ops generalizing db with
  | nil => exact h
  | cons op rest ih =>
    have hsubo : ∀ m ∈ opMsgs op, m ∈ S := by
      intro m2 hm2
      refine hsub m2 ?_
      unfold opsMsgs
      rw [List.flatMap_cons]
      exact List.mem_append_left _ hm2
    have hsub2 : ∀ m ∈ opsMsgs rest, m ∈ S := by
      intro m2 hm2
      refine hsub m2 ?_
      unfold opsMsgs
      rw [List.flatMap_cons]
      exact List.mem_append_right _ hm2
    simp only [runOps, List.foldl_cons]
    have h1 : P (runOp op db) := runOp_pres P S hstep op hsubo db h
    exact ih hsub2 (runOp op db) h1

/-- C2.  After any sequence of ingestion operations (live record calls and
backfill passes) from a fresh database, every event row's reactor, message
author and message resolve to existing rows: the upserts precede the insert
and rows are never removed. -/
theorem C2_referential_completeness (ops : List Op) :
    refComplete (runOps ops emptyDB) := by
  have h0 : refComplete emptyDB := by
    intro e he
    exact absurd he (List.not_mem_nil e)
  exact runOps_pres refComplete (opsMsgs ops)
    (fun u m em et db hm h => record_pres_refComplete u m em et db h)
    ops (fun m hm => hm) emptyDB h0

/-! ### Claim C6: user upsert is idempotent and last-write-wins -/

/-- The update pass of the upsert never changes `user_id`, so per-id row
counts are stable under it. -/
theorem upsert_map_preserves_filter_len (u : DUser) (l : List UserRow) (i : Int) :
    ((l.map (fun r => if r.user_id = u.id
        then { r with username := u.uname, discriminator := u.discriminator } else r)).filter
      (fun r => r.user_id = i)).length
    = (l.filter (fun r => r.user_id = i)).length := by
  rw [List.filter_map, List.length_map]
  refine congrArg List.length (List.filter_congr ?_)
  intro r _
  simp only [Function.comp]
  by_cases hr : r.user_id = u.id
  · simp [hr]
  · simp [hr]

theorem filter_userid_nil_of_not_exists (db : DB) (i : Int) (h : ¬ userExists db i) :
    db.users.filter (fun r => r.user_id = i) = [] := by
  refine List.filter_eq_nil_iff.mpr ?_
  intro r hr
  simp only [decide_eq_true_eq]
  exact fun hri => h ⟨r, hr, hri⟩

theorem filter_userid_pos_of_exists (db : DB) (i : Int) (h : userExists db i) :
    0 < (db.users.filter (fun r => r.user_id = i)).length := by
  rcases h with ⟨r, hr, hri⟩
  have hmem : r ∈ db.users.filter (fun r => r.user_id = i) :=
    List.mem_filter.mpr ⟨hr, by simpa using hri⟩
  cases hl : db.users.filter (fun r => r.user_id = i) with
  | nil =>
    rw [hl] at hmem
    exact absurd hmem (List.not_mem_nil r)
  | cons x xs => simp

/-- One upsert of a user with id `i` leaves exactly one row for `i` when at
most one was there before. -/
theorem upsert_count_one (u : DUser) (db : DB) (i : Int) (hu : u.id = i)
    (hcount : (db.users.filter (fun r => r.user_id = i)).length ≤ 1) :
    ((update_user_in_db u db).users.filter (fun r => r.user_id = i)).length = 1 := by
  unfold update_user_in_db
  by_cases hex : userExists db u.id
  · rw [if_pos hex]
    rw [upsert_map_preserves_filter_len]
    have hpos := filter_userid_pos_of_exists db i (hu ▸ hex)
    omega
  · rw [if_neg hex]
    rw [upsert_map_preserves_filter_len]
    rw [List.filter_append]
    rw [filter_userid_nil_of_not_exists db i (by rwa [hu] at hex)]
    simp [hu]

/-- After an upsert of a user with id `i`, every row for `i` carries that
upsert's name and discriminator. -/
theorem upsert_lastwrite (u : DUser) (db : DB) (i : Int) (hu : u.id = i)
    (r : UserRow) (hr : r ∈ (update_user_in_db u db).users) (hri : r.user_id = i) :
    r = { user_id := i, username := u.uname, discriminator := u.discriminator } := by
  rcases List.mem_map.mp hr with ⟨r0, hr0, hgr⟩
  by_cases h0 : r0.user_id = u.id
  · rw [← hgr, if_pos h0]
    have hui : r0.user_id = i := h0.trans hu
    simp [hui]
  · exfalso
    rw [← hgr, if_neg h0] at hri
    exact h0 (hri.trans hu.symm)

/-- An upsert whose row already exists and whose update pass changes no row
is the identity. -/
theorem update_user_fixed (u : DUser) (db : DB)
    (hex : userExists db u.id)
    (hmap : db.users.map (fun r => if r.user_id = u.id
        then { r with username := u.uname, discriminator := u.discriminator } else r) = db.users) :
    update_user_in_db u db = db := by
  unfold update_user_in_db
  rw [if_pos hex]
  show ({ users := db.users.map (fun r => (if r.user_id = u.id then { r with username := u.uname, discriminator := u.discriminator } else r)),
          messages := db.messages, reaction_events := db.reaction_events,
          next_event_id := db.next_event_id } : DB) = db
  rw [hmap]

/-- Re-upserting the same user object is a no-op on the state. -/
theorem update_user_idempotent (u : DUser) (db0 : DB) :
    update_user_in_db u (update_user_in_db u db0) = update_user_in_db u db0 := by
  refine update_user_fixed u _ (userExists_self u db0) ?_
  have hgg : ∀ l : List UserRow,
      (l.map (fun r => if r.user_id = u.id
        then { r with username := u.uname, discriminator := u.discriminator } else r)).map
        (fun r => if r.user_id = u.id
          then { r with username := u.uname, discriminator := u.discriminator } else r)
      = l.map (fun r => if r.user_id = u.id
          then { r with username := u.uname, discriminator := u.discriminator } else r) := by
    intro l
    rw [List.map_map]
    refine List.map_congr_left ?_
    intro r _
    simp only [Function.comp]
    by_cases hr : r.user_id = u.id <;> simp [hr]
  show ((if userExists db0 u.id then db0.users
      else db0.users ++ [{ user_id := u.id, username := u.uname, discriminator := u.discriminator }]).map
      (fun r => if r.user_id = u.id
        then { r with username := u.uname, discriminator := u.discriminator } else r)).map
      (fun r => if r.user_id = u.id
        then { r with username := u.uname, discriminator := u.discriminator } else r)
    = (if userExists db0 u.id then db0.users
      else db0.users ++ [{ user_id := u.id, username := u.uname, discriminator := u.discriminator }]).map
      (fun r => if r.user_id = u.id
        then { r with username := u.uname, discriminator := u.discriminator } else r)
  exact hgg _

/-- C6.  Upserting the same `user_id` twice leaves exactly one row for it,
carrying the name and discriminator of the most recent upsert; re-upserting
identical data is a no-op on the state. -/
theorem C6_upsert_idempotent_lastwrite (u1 u2 : DUser) (db : DB) (i : Int)
    (hcount : (db.users.filter (fun r => r.user_id = i)).length ≤ 1)
    (h1 : u1.id = i) (h2 : u2.id = i) :
    ((update_user_in_db u2 (update_user_in_db u1 db)).users.filter
        (fun r => r.user_id = i)).length = 1
    ∧ (∀ r ∈ (update_user_in_db u2 (update_user_in_db u1 db)).users,
        r.user_id = i →
          r = { user_id := i, username := u2.uname, discriminator := u2.discriminator })
    ∧ (∀ (u : DUser) (db0 : DB),
        update_user_in_db u (update_user_in_db u db0) = update_user_in_db u db0) := by
  have hA1 : ((update_user_in_db u1 db).users.filter (fun r => r.user_id = i)).length = 1 :=
    upsert_count_one u1 db i h1 hcount
  refine ⟨upsert_count_one u2 _ i h2 (le_of_eq hA1), ?_, update_user_idempotent⟩
  intro r hr hri
  exact upsert_lastwrite u2 _ i h2 r hr hri

/-- C6 witness: two upserts of user id 7 with different names on a fresh
database. -/
theorem C6_upsert_idempotent_lastwrite_witness :
    ((update_user_in_db { id := 7, uname := "new", discriminator := "1", bot := false }
        (update_user_in_db { id := 7, uname := "old", discriminator := "0", bot := false }
          emptyDB)).users.filter (fun r => r.user_id = 7)).length = 1
    ∧ (∀ r ∈ (update_user_in_db { id := 7, uname := "new", discriminator := "1", bot := false }
        (update_user_in_db { id := 7, uname := "old", discriminator := "0", bot := false }
          emptyDB)).users,
        r.user_id = 7 →
          r = { user_id := 7, username := "new", discriminator := "1" })
    ∧ (∀ (u : DUser) (db0 : DB),
        update_user_in_db u (update_user_in_db u db0) = update_user_in_db u db0) :=
  C6_upsert_idempotent_lastwrite
    { id := 7, uname := "old", discriminator := "0", bot := false }
    { id := 7, uname := "new", discriminator := "1", bot := false }
    emptyDB 7 (by decide) rfl rfl

/-! ### Claim C7: an event's guild always matches its message row -/

/-- Every event's message resolves to a stored message row. -/
def MsgRefOK (db : DB) : Prop := ∀ e ∈ db.reaction_events, msgExists db e.message_id

/-- Every event's stored `guild_id` equals the `guild_id` of the messages
row it references. -/
def MsgGuildInv (db : DB) : Prop :=
  ∀ e ∈ db.reaction_events, ∀ row ∈ db.messages,
    row.message_id = e.message_id → e.guild_id = some row.guild_id

/-- Every stored message row came from some input message (same id and
guild). -/
def RowOrigin (M : List DMessage) (db : DB) : Prop :=
  ∀ row ∈ db.messages, ∃ m ∈ M, m.id = row.message_id ∧ m.guild = some row.guild_id

/-- The platform guarantee: a message id determines its guild across all
inputs of a run. -/
def ConsistentMsgs (M : List DMessage) : Prop :=
  ∀ m1 ∈ M, ∀ m2 ∈ M, m1.id = m2.id → m1.guild = m2.guild

instance (M : List DMessage) : Decidable (ConsistentMsgs M) :=
  inferInstanceAs (Decidable (∀ m1 ∈ M, ∀ m2 ∈ M, m1.id = m2.id → m1.guild = m2.guild))

/-- The combined invariant threaded through every ingestion path. -/
def GoodC7 (M : List DMessage) (db : DB) : Prop :=
  MsgRefOK db ∧ MsgGuildInv db ∧ RowOrigin M db

/-- A successful message upsert, fully characterized. -/
theorem update_message_ok_cases (m : DMessage) (db db' : DB)
    (h : update_message_in_db m db = Except.ok db') :
    ∃ g a, m.guild = some g ∧ m.author = some a
      ∧ ((msgExists db m.id ∧ db'.messages = db.messages)
        ∨ (¬ msgExists db m.id ∧ db'.messages = db.messages
            ++ [{ message_id := m.id, channel_id := m.channel_id, guild_id := g, author_id := a.id }]))
      ∧ db'.users = db.users ∧ db'.reaction_events = db.reaction_events := by
  unfold update_message_in_db at h
  cases hg : m.guild with
  | none =>
    rw [hg] at h
    exact Except.noConfusion h
  | some g =>
    cases ha : m.author with
    | none =>
      rw [hg, ha] at h
      exact Except.noConfusion h
    | some a =>
      rw [hg, ha] at h
      injection h with h'
      subst h'
      refine ⟨g, a, rfl, rfl, ?_, rfl, rfl⟩
      by_cases hex : msgExists db m.id
      · left
        exact ⟨hex, by rw [if_pos hex]⟩
      · right
        exact ⟨hex, by rw [if_neg hex]⟩

theorem goodC7_update_user (M : List DMessage) (u : DUser) (db : DB)
    (h : GoodC7 M db) : GoodC7 M (update_user_in_db u db) := h

/-- One record call preserves the combined guild-consistency invariant when
its message is one of the run's inputs and those inputs are consistent. -/
theorem record_pres_goodC7 (M : List DMessage) (hcons : ConsistentMsgs M)
    (reactor : DUser) (message : DMessage) (hm : message ∈ M) (emoji : DEmoji)
    (event_type : String) (db : DB) (h : GoodC7 M db) :
    GoodC7 M (record_reaction_event reactor message emoji event_type db).db := by
  cases hauth : message.author with
  | none =>
    simp only [record_reaction_event, hauth]
    exact goodC7_update_user M reactor db h
  | some a =>
    have h2 : GoodC7 M (update_user_in_db a (update_user_in_db reactor db)) :=
      goodC7_update_user M a _ (goodC7_update_user M reactor db h)
    cases hok : update_message_in_db message (update_user_in_db a (update_user_in_db reactor db)) with
    | error e =>
      simp only [record_reaction_event, hauth, hok]
      exact h2
    | ok db3 =>
      simp only [record_reaction_event, hauth, hok]
      rcases update_message_ok_shape message _ db3 hok with ⟨_, hev, hmono, hmid⟩
      rcases update_message_ok_cases message _ db3 hok with ⟨g, a2, hg, ha2, hrows, _, _⟩
      rcases h2 with ⟨href, hginv, horig⟩
      have horig3 : RowOrigin M db3 := by
        intro row hrow
        rcases hrows with ⟨hex, heq⟩ | ⟨hex, heq⟩
        · rw [heq] at hrow
          exact horig row hrow
        · rw [heq] at hrow
          rcases List.mem_append.mp hrow with hold | hnew
          · exact horig row hold
          · rw [List.mem_singleton.mp hnew]
            exact ⟨message, hm, rfl, hg⟩
      have href3 : MsgRefOK db3 := by
        intro e he
        rw [hev] at he
        exact msgExists_mono hmono _ (href e he)
      have hginv3 : MsgGuildInv db3 := by
        intro e he row hrow hid
        rw [hev] at he
        rcases hrows with ⟨hex, heq⟩ | ⟨hex, heq⟩
        · rw [heq] at hrow
          exact hginv e he row hrow hid
        · rw [heq] at hrow
          rcases List.mem_append.mp hrow with hold | hnew
          · exact hginv e he row hold hid
          · exfalso
            rw [List.mem_singleton.mp hnew] at hid
            rcases href e he with ⟨r0, hr0, hr0i⟩
            exact hex ⟨r0, hr0, by rw [hr0i, ← hid]⟩
      refine ⟨?_, ?_, ?_⟩
      · intro e he
        rcases List.mem_append.mp he with hold | hnew
        · exact href3 e hold
        · rw [List.mem_singleton.mp hnew]
          exact hmid
      · intro e he row hrow hid
        rcases List.mem_append.mp he with hold | hnew
        · exact hginv3 e hold row hrow hid
        · rw [List.mem_singleton.mp hnew] at hid ⊢
          rcases horig3 row hrow with ⟨m2, hm2, hm2id, hm2g⟩
          have hsameid : m2.id = message.id := by rw [hm2id, hid]
          have : m2.guild = message.guild := hcons m2 hm2 message hm hsameid
          rw [hg] at this
          rw [hm2g] at this
          injection this with hgg
          rw [hg, hgg]
      · intro row hrow
        exact horig3 row hrow

/-- C7.  Under the platform guarantee that a message id determines its
guild, every reachable state (any sequence of live record calls and
backfill passes from a fresh database) has each event's `guild_id` equal to
the `guild_id` of the messages row it references, and that row exists. -/
theorem C7_event_guild_matches_message (ops : List Op)
    (hcons : ConsistentMsgs (opsMsgs ops)) :
    MsgRefOK (runOps ops emptyDB) ∧ MsgGuildInv (runOps ops emptyDB) := by
  have h0 : GoodC7 (opsMsgs ops) emptyDB := by
    refine ⟨?_, ?_, ?_⟩
    · intro e he
      exact absurd he (List.not_mem_nil e)
    · intro e he
      exact absurd he (List.not_mem_nil e)
    · intro r hr
      exact absurd hr (List.not_mem_nil r)
  have h := runOps_pres (GoodC7 (opsMsgs ops)) (opsMsgs ops)
    (fun u m em et db hm hdb => record_pres_goodC7 (opsMsgs ops) hcons u m hm em et db hdb)
    ops (fun m hm => hm) emptyDB h0
  exact ⟨h.1, h.2.1⟩

/-- A concrete run mixing a live event and a backfill pass. -/
def opsC7 : List Op :=
  [Op.live { id := 1, uname := "alice", discriminator := "0", bot := false }
      { id := 100, channel_id := 7, guild := some 5,
        author := some { id := 2, uname := "bob", discriminator := "0", bot := false } }
      (DEmoji.unicode "x") "add",
   Op.backfill [goodChannel]]

/-- C7 witness: the invariant at a concrete consistent run. -/
theorem C7_event_guild_matches_message_witness :
    MsgRefOK (runOps opsC7 emptyDB) ∧ MsgGuildInv (runOps opsC7 emptyDB) :=
  C7_event_guild_matches_message opsC7 (by decide)
